import Mathlib

/-!
Shallow embedding of the pausable FIFO job-queue subsystem of the
Big-Gay-Downloader repository: src/core/queue.py (DownloadQueue) and
src/core/conversion_queue.py (ConversionQueue).

Jobs are mutable Python objects shared between the UI thread and the worker
thread; we model them as records stored in a heap indexed by a job identity
(JobId).  Each queue method becomes a state transformer on a QueueState that
carries the pending list (the Python list self.jobs), the current-job
reference, the stop and pause event flags, the capacity, a flag recording
whether a worker thread is alive, and the heap of job records.  One full
iteration of the worker loop is modelled as an atomic step (workerStep); the
processing callback is an oracle parameter that transforms the record of the
job handed to it and optionally raises an exception carrying a message.
-/

namespace BGD

/-- Job identity: Python object identity of a job record. -/
abbrev JobId := Nat

/-- JobStatus enum of src/core/queue.py. -/
inductive JobStatus
  | pending
  | downloading
  | completed
  | failed
deriving DecidableEq, Repr

/-- Mutable fields of the DownloadJob dataclass of src/core/queue.py
(the immutable identity fields url/format/output_folder are subsumed by the
JobId index). -/
structure DownloadJob where
  status : JobStatus := .pending
  progress : ℚ := 0
  error_message : Option String := none
  title : Option String := none
  eta : Option String := none
  speed : Option String := none
deriving DecidableEq, Repr

/-- The heap of shared job records. -/
abbrev Heap := JobId → DownloadJob

/-- The download callback: given the job (record) it may mutate the record and
may raise an exception; a raised exception carries its message string. -/
abbrev Callback := JobId → DownloadJob → DownloadJob × Option String

/-- State of a DownloadQueue plus the heap of job records it can reach. -/
structure QueueState where
  jobs : List JobId
  current : Option JobId
  stopFlag : Bool
  pauseFlag : Bool
  workerAlive : Bool
  maxSize : Nat
  heap : Heap

/-- DownloadQueue.__init__: empty list, no current job, stop event clear,
pause event SET (start paused by default), no worker thread yet. -/
def initQueue (maxSize : Nat) (heap : Heap) : QueueState :=
  { jobs := []
    current := none
    stopFlag := false
    pauseFlag := true
    workerAlive := false
    maxSize := maxSize
    heap := heap }

/-- Write a status into one job record of the heap. -/
def setStatus (h : Heap) (j : JobId) (st : JobStatus) : Heap :=
  fun k => if k = j then { h k with status := st } else h k

/-- DownloadQueue.add_job: reject when the list is at capacity, else append. -/
def addJob (s : QueueState) (j : JobId) : Bool × QueueState :=
  if s.maxSize ≤ s.jobs.length then (false, s)
  else (true, { s with jobs := s.jobs ++ [j] })

/-- DownloadQueue.get_queue_size. -/
def getQueueSize (s : QueueState) : Nat :=
  s.jobs.length

/-- DownloadQueue.is_queue_full. -/
def isQueueFull (s : QueueState) : Bool :=
  s.maxSize ≤ s.jobs.length

/-- DownloadQueue.get_queue_capacity. -/
def getQueueCapacity (s : QueueState) : Nat :=
  s.maxSize

/-- DownloadQueue.is_paused. -/
def isPaused (s : QueueState) : Bool :=
  s.pauseFlag

/-- DownloadQueue.cancel_job: if the job is the current job mark it failed;
else if it is in the pending list mark it failed (without removing it);
else report failure. -/
def cancelJob (s : QueueState) (j : JobId) : Bool × QueueState :=
  if s.current = some j then
    (true, { s with heap := setStatus s.heap j .failed })
  else if j ∈ s.jobs then
    (true, { s with heap := setStatus s.heap j .failed })
  else
    (false, s)

/-- DownloadQueue.remove_job: if the job is in the pending list remove it
outright; else if it is the current job mark it failed; else if its status is
still PENDING (popped-but-not-current window) mark it failed; else report
failure. -/
def removeJob (s : QueueState) (j : JobId) : Bool × QueueState :=
  if j ∈ s.jobs then
    (true, { s with jobs := s.jobs.erase j })
  else if s.current = some j then
    (true, { s with heap := setStatus s.heap j .failed })
  else if (s.heap j).status = .pending then
    (true, { s with heap := setStatus s.heap j .failed })
  else
    (false, s)

/-- Mark every job of a list failed in the heap. -/
def failAll (h : Heap) : List JobId → Heap
  | [] => h
  | j :: rest => failAll (setStatus h j .failed) rest

/-- DownloadQueue.clear_queue: mark all pending-list jobs failed, empty it. -/
def clearQueue (s : QueueState) : QueueState :=
  { s with heap := failAll s.heap s.jobs, jobs := [] }

/-- Python truthiness of an Optional[str] argument. -/
def truthy : Option String → Bool
  | none => false
  | some str => str ≠ ""

/-- Clamp a progress value into [0, 100]. -/
def clampProgress (p : ℚ) : ℚ :=
  max 0 (min 100 p)

/-- DownloadQueue.update_job_progress: no-op unless the job status is
DOWNLOADING; clamps progress; eta/speed only written when truthy. -/
def updateJobProgress (s : QueueState) (j : JobId) (p : ℚ)
    (eta speed : Option String) : QueueState :=
  if (s.heap j).status = .downloading then
    { s with heap := fun k =>
        if k = j then
          { s.heap k with
            progress := clampProgress p
            eta := if truthy eta then eta else (s.heap k).eta
            speed := if truthy speed then speed else (s.heap k).speed }
        else s.heap k }
  else s

/-- DownloadQueue.resume: clear the pause event. -/
def resumeQueue (s : QueueState) : QueueState :=
  { s with pauseFlag := false }

/-- DownloadQueue.pause: set the pause event. -/
def pauseQueue (s : QueueState) : QueueState :=
  { s with pauseFlag := true }

/-- DownloadQueue.start: if no worker thread is alive, clear the stop event,
clear the pause event and spawn the worker; else just resume. -/
def startQueue (s : QueueState) : QueueState :=
  if s.workerAlive then resumeQueue s
  else { s with stopFlag := false, pauseFlag := false, workerAlive := true }

/-- DownloadQueue.stop: set the stop event and join the worker thread. -/
def stopQueue (s : QueueState) : QueueState :=
  { s with stopFlag := true, workerAlive := false }

/-- The scan of the worker loop: find the first job of the list whose status
is PENDING, and pop it, returning it together with the list without it. -/
def popFirstPending (h : Heap) : List JobId → Option (JobId × List JobId)
  | [] => none
  | j :: rest =>
    if (h j).status = .pending then some (j, rest)
    else
      match popFirstPending h rest with
      | some (k, rest2) => some (k, j :: rest2)
      | none => none

/-- The processing phase of the DownloadQueue worker loop on job j: set its
status to DOWNLOADING, run the callback on the record (the callback may
mutate it and may raise); on normal return the status becomes COMPLETED
unless the callback left it FAILED; on an exception the status becomes
FAILED unless it already was FAILED — the exception message is discarded
(never written into error_message by this queue). -/
def processHeap (cb : Callback) (h : Heap) (j : JobId) : Heap :=
  let h1 := setStatus h j .downloading
  let res := cb j (h1 j)
  let h2 : Heap := fun k => if k = j then res.1 else h1 k
  match res.2 with
  | none => if (h2 j).status = .failed then h2 else setStatus h2 j .completed
  | some _ => if (h2 j).status = .failed then h2 else setStatus h2 j .failed

/-- One full iteration of DownloadQueue worker loop, atomically: when the
queue is stopped, not started, or paused, nothing happens; otherwise the
first PENDING job is popped, installed as current, re-checked (it was PENDING
when popped, so the cancelled-in-the-window re-checks cannot fire inside the
atomic step), then processed via processHeap; the current reference is
cleared at the end.  The second component is the job handed to the
callback, if any. -/
def workerStep (cb : Callback) (s : QueueState) : QueueState × Option JobId :=
  if s.stopFlag = true then (s, none)
  else if s.workerAlive = false then (s, none)
  else if s.pauseFlag = true then (s, none)
  else
    match popFirstPending s.heap s.jobs with
    | none => (s, none)
    | some (j, rest) =>
      if (s.heap j).status = .failed then
        ({ s with jobs := rest, current := none }, none)
      else
        ({ s with
            jobs := rest
            current := none
            heap := processHeap cb s.heap j }, some j)

/-- The operations that the UI thread and the worker thread can perform on a
DownloadQueue, as events of a trace. -/
inductive Op
  | add (j : JobId)
  | cancel (j : JobId)
  | remove (j : JobId)
  | clear
  | updateProgress (j : JobId) (p : ℚ) (eta speed : Option String)
  | start
  | stop
  | pause
  | resume
  | work
deriving DecidableEq

/-- Apply one operation; the second component is the job handed to the
callback during that operation, if any. -/
def applyOp (cb : Callback) (s : QueueState) : Op → QueueState × Option JobId
  | .add j => ((addJob s j).2, none)
  | .cancel j => ((cancelJob s j).2, none)
  | .remove j => ((removeJob s j).2, none)
  | .clear => (clearQueue s, none)
  | .updateProgress j p eta speed => (updateJobProgress s j p eta speed, none)
  | .start => (startQueue s, none)
  | .stop => (stopQueue s, none)
  | .pause => (pauseQueue s, none)
  | .resume => (resumeQueue s, none)
  | .work => workerStep cb s

/-- Run a list of operations; returns the final state and the list of jobs
handed to the callback, in order. -/
def run (cb : Callback) (s : QueueState) : List Op → QueueState × List JobId
  | [] => (s, [])
  | op :: ops =>
    let step := applyOp cb s op
    let rest := run cb step.1 ops
    (rest.1, step.2.toList ++ rest.2)

/-! ConversionQueue (src/core/conversion_queue.py): same engine; the worker
loop differs in the exception handler, which captures the exception message
into the error_message field when the status is still CONVERTING, and in the
progress bookkeeping around the callback. -/

/-- ConversionStatus enum of src/core/conversion_queue.py. -/
inductive ConversionStatus
  | pending
  | converting
  | completed
  | failed
deriving DecidableEq, Repr

/-- Mutable fields of the ConversionJob dataclass (identity fields
input_path/target_format/output_folder subsumed by the JobId index). -/
structure ConversionJob where
  status : ConversionStatus := .pending
  progress : ℚ := 0
  error_message : Option String := none
  output_path : Option String := none
  title : Option String := none
deriving DecidableEq, Repr

/-- The heap of shared conversion-job records. -/
abbrev CHeap := JobId → ConversionJob

/-- The conversion callback. -/
abbrev CCallback := JobId → ConversionJob → ConversionJob × Option String

/-- State of a ConversionQueue plus its heap of job records. -/
structure CQueueState where
  jobs : List JobId
  current : Option JobId
  stopFlag : Bool
  pauseFlag : Bool
  workerAlive : Bool
  maxSize : Nat
  heap : CHeap

/-- Write a status into one conversion-job record of the heap. -/
def setStatusC (h : CHeap) (j : JobId) (st : ConversionStatus) : CHeap :=
  fun k => if k = j then { h k with status := st } else h k

/-- The scan of the conversion worker loop: pop the first PENDING job. -/
def popFirstPendingC (h : CHeap) : List JobId → Option (JobId × List JobId)
  | [] => none
  | j :: rest =>
    if (h j).status = .pending then some (j, rest)
    else
      match popFirstPendingC h rest with
      | some (k, rest2) => some (k, j :: rest2)
      | none => none

/-- The processing phase of the ConversionQueue worker loop on job j:
status := CONVERTING and progress := 0, then the callback runs, and: on
normal return, if the status is still CONVERTING it becomes COMPLETED with
progress 100; on an exception, if the status is still CONVERTING it becomes
FAILED and the exception message is written into error_message; otherwise
the record is left as the callback left it.  convStart is the entry
bookkeeping (status := CONVERTING, progress := 0). -/
def convStart (h : CHeap) (j : JobId) : CHeap :=
  fun k =>
    if k = j then { h k with status := .converting, progress := 0 }
    else h k

def processHeapC (cb : CCallback) (h : CHeap) (j : JobId) : CHeap :=
  let h1 : CHeap := convStart h j
  let res := cb j (h1 j)
  let h2 : CHeap := fun k => if k = j then res.1 else h1 k
  match res.2 with
  | none =>
    if (h2 j).status = .converting then
      fun k =>
        if k = j then { h2 k with status := .completed, progress := 100 }
        else h2 k
    else h2
  | some msg =>
    if (h2 j).status = .converting then
      fun k =>
        if k = j then { h2 k with status := .failed, error_message := some msg }
        else h2 k
    else h2

/-- One full iteration of ConversionQueue worker loop, atomically.  After
the pop the status is re-checked (dead inside the atomic step since the
popped job was PENDING); then the job is processed via processHeapC and the
current reference is cleared. -/
def workerStepC (cb : CCallback) (s : CQueueState) :
    CQueueState × Option JobId :=
  if s.stopFlag = true then (s, none)
  else if s.workerAlive = false then (s, none)
  else if s.pauseFlag = true then (s, none)
  else
    match popFirstPendingC s.heap s.jobs with
    | none => (s, none)
    | some (j, rest) =>
      if (s.heap j).status ≠ .pending then
        ({ s with jobs := rest, current := none }, none)
      else
        ({ s with
            jobs := rest
            current := none
            heap := processHeapC cb s.heap j }, some j)

/-! Concrete instances used to exercise the model. -/

/-- A heap whose records are all fresh (status PENDING, defaults). -/
def pendingHeap : Heap := fun _ => {}

/-- A heap whose records all carry a COMPLETED status. -/
def completedHeap : Heap := fun _ => { status := .completed }

/-- A heap whose records all carry a DOWNLOADING status. -/
def downloadingHeap : Heap := fun _ => { status := .downloading }

/-- A download callback that returns normally without touching the job. -/
def idCallback : Callback := fun _ r => (r, none)

/-- A download callback that always raises, with message boom. -/
def boomCallback : Callback := fun _ r => (r, some "boom")

/-- A conversion heap whose records are all fresh. -/
def pendingHeapC : CHeap := fun _ => {}

/-- A conversion callback that always raises, with message boom. -/
def boomCallbackC : CCallback := fun _ r => (r, some "boom")

/-- A small running queue holding jobs 0 and 1, used to exercise the
operations on concrete inputs. -/
def demoState : QueueState :=
  { jobs := [0, 1]
    current := none
    stopFlag := false
    pauseFlag := false
    workerAlive := true
    maxSize := 5
    heap := pendingHeap }

/-! Helper lemmas about the worker scan. -/

lemma popFirstPending_none {h : Heap} :
    ∀ {l : List JobId}, popFirstPending h l = none →
      ∀ j ∈ l, (h j).status ≠ .pending := by
  intro l
  induction l with
  | nil => intro _ j hj; cases hj
  | cons x t ih =>
    intro hp j hj
    by_cases hx : (h x).status = .pending
    · simp [popFirstPending, hx] at hp
    · rcases List.mem_cons.mp hj with rfl | hj
      · exact hx
      · refine ih ?_ j hj
        simp only [popFirstPending, if_neg hx] at hp
        cases hrec : popFirstPending h t with
        | none => rfl
        | some p => rw [hrec] at hp; cases hp

lemma popFirstPending_some {h : Heap} :
    ∀ {l : List JobId} {j : JobId} {rest : List JobId},
      popFirstPending h l = some (j, rest) →
      ∃ a b, l = a ++ j :: b ∧ rest = a ++ b ∧
        (∀ k ∈ a, (h k).status ≠ .pending) ∧ (h j).status = .pending := by
  intro l
  induction l with
  | nil => intro j rest hp; cases hp
  | cons x t ih =>
    intro j rest hp
    by_cases hx : (h x).status = .pending
    · simp only [popFirstPending, if_pos hx] at hp
      injection hp with hpair
      injection hpair with h1 h2
      subst h1; subst h2
      exact ⟨[], t, by simp, by simp, by simp, hx⟩
    · simp only [popFirstPending, if_neg hx] at hp
      cases hrec : popFirstPending h t with
      | none => rw [hrec] at hp; cases hp
      | some p =>
        obtain ⟨k, rest2⟩ := p
        rw [hrec] at hp
        injection hp with hpair
        injection hpair with h1 h2
        subst h1; subst h2
        obtain ⟨a, b, rfl, rfl, ha, hj⟩ := ih hrec
        refine ⟨x :: a, b, by simp, by simp, ?_, hj⟩
        intro k hk
        rcases List.mem_cons.mp hk with rfl | hk
        · exact hx
        · exact ha k hk

/-- The processing phase only touches the record of the processed job. -/
lemma processHeap_ne {cb : Callback} {h : Heap} {j k : JobId} (hk : k ≠ j) :
    processHeap cb h j k = h k := by
  unfold processHeap
  rcases hres : cb j (setStatus h j .downloading j) with ⟨r, exc⟩
  by_cases hfail : r.status = JobStatus.failed <;>
    cases exc <;> simp [setStatus, hfail, hk]

/-- After the processing phase the processed job has a terminal status. -/
lemma processHeap_terminal (cb : Callback) (h : Heap) (j : JobId) :
    (processHeap cb h j j).status = .completed ∨
    (processHeap cb h j j).status = .failed := by
  unfold processHeap
  rcases hres : cb j (setStatus h j .downloading j) with ⟨r, exc⟩
  by_cases hfail : r.status = JobStatus.failed <;>
    cases exc <;> simp [setStatus, hfail]

lemma workerStep_of_paused (cb : Callback) {s : QueueState}
    (hpause : s.pauseFlag = true) : workerStep cb s = (s, none) := by
  unfold workerStep
  cases hstop : s.stopFlag <;> cases halive : s.workerAlive <;> simp [hpause]

lemma workerStep_of_not_alive (cb : Callback) {s : QueueState}
    (halive : s.workerAlive = false) : workerStep cb s = (s, none) := by
  unfold workerStep
  cases hstop : s.stopFlag <;> simp [halive]

lemma workerStep_of_pop_none (cb : Callback) {s : QueueState}
    (hp : popFirstPending s.heap s.jobs = none) :
    workerStep cb s = (s, none) := by
  unfold workerStep
  cases hstop : s.stopFlag <;> cases halive : s.workerAlive <;>
    cases hpausev : s.pauseFlag <;> simp [hp]

/-- The active case of the worker step: with the queue running and unpaused,
popping job j leaves the rest of the list, clears current, processes j. -/
lemma workerStep_pop (cb : Callback) {s : QueueState} {j : JobId}
    {rest : List JobId}
    (hstop : s.stopFlag = false) (halive : s.workerAlive = true)
    (hpause : s.pauseFlag = false)
    (hp : popFirstPending s.heap s.jobs = some (j, rest)) :
    workerStep cb s =
      ({ s with
          jobs := rest
          current := none
          heap := processHeap cb s.heap j }, some j) := by
  obtain ⟨a, b, _, _, _, hj⟩ := popFirstPending_some hp
  have hnotfail : ¬ (s.heap j).status = .failed := by
    rw [hj]; intro hcontra; cases hcontra
  unfold workerStep
  simp [hstop, halive, hpause, hp, hnotfail]

/-! Helper lemmas about run. -/

lemma run_nil (cb : Callback) (s : QueueState) : run cb s [] = (s, []) := rfl

lemma run_cons (cb : Callback) (s : QueueState) (op : Op) (ops : List Op) :
    run cb s (op :: ops) =
      ((run cb (applyOp cb s op).1 ops).1,
        (applyOp cb s op).2.toList ++ (run cb (applyOp cb s op).1 ops).2) :=
  rfl

lemma run_append (cb : Callback) (l1 l2 : List Op) :
    ∀ (s : QueueState),
      run cb s (l1 ++ l2) =
        ((run cb (run cb s l1).1 l2).1,
          (run cb s l1).2 ++ (run cb (run cb s l1).1 l2).2) := by
  induction l1 with
  | nil => intro s; simp [run_nil, run_cons]
  | cons op t ih =>
    intro s
    rw [List.cons_append, run_cons, run_cons, ih]
    simp [run_cons]

lemma run_work_pop_none (cb : Callback) {s : QueueState}
    (hp : popFirstPending s.heap s.jobs = none) :
    ∀ k, run cb s (List.replicate k Op.work) = (s, []) := by
  intro k
  induction k with
  | zero => rfl
  | succ n ih =>
    rw [List.replicate_succ, run_cons]
    have hws : applyOp cb s Op.work = (s, none) := workerStep_of_pop_none cb hp
    rw [hws, ih]
    rfl

lemma run_work_paused (cb : Callback) {s : QueueState}
    (hpause : s.pauseFlag = true) :
    ∀ k, run cb s (List.replicate k Op.work) = (s, []) := by
  intro k
  induction k with
  | zero => rfl
  | succ n ih =>
    rw [List.replicate_succ, run_cons]
    have hws : applyOp cb s Op.work = (s, none) := workerStep_of_paused cb hpause
    rw [hws, ih]
    rfl

/-- Adding a list of jobs within capacity appends them all, in order. -/
lemma run_adds (cb : Callback) :
    ∀ (js : List JobId) (s : QueueState),
      s.jobs.length + js.length ≤ s.maxSize →
      run cb s (js.map Op.add) = ({ s with jobs := s.jobs ++ js }, []) := by
  intro js
  induction js with
  | nil => intro s _; simp [run_nil]
  | cons j t ih =>
    intro s hcap
    rw [List.map_cons, run_cons]
    have hlt : ¬ s.maxSize ≤ s.jobs.length := by
      simp [List.length_cons] at hcap
      omega
    have hadd : applyOp cb s (Op.add j) =
        ({ s with jobs := s.jobs ++ [j] }, none) := by
      simp [applyOp, addJob, hlt]
    rw [hadd]
    have hcap2 : ({ s with jobs := s.jobs ++ [j] } : QueueState).jobs.length
        + t.length ≤ ({ s with jobs := s.jobs ++ [j] } : QueueState).maxSize := by
      simp [List.length_append, List.length_cons] at hcap ⊢
      omega
    rw [ih _ hcap2]
    simp

/-- Facts about a successful pop on a duplicate-free list. -/
lemma pop_facts {h : Heap} {l : List JobId} {j : JobId} {rest : List JobId}
    (hp : popFirstPending h l = some (j, rest)) (hnd : l.Nodup) :
    l.length = rest.length + 1 ∧ rest.Nodup ∧ j ∉ rest ∧
      l.filter (fun k => (h k).status = .pending)
        = j :: rest.filter (fun k => (h k).status = .pending) := by
  obtain ⟨a, b, hl, hr, ha, hj⟩ := popFirstPending_some hp
  subst hl; subst hr
  obtain ⟨hna, hnjb, hdisj⟩ := List.nodup_append.mp hnd
  have hjb : j ∉ b := (List.nodup_cons.mp hnjb).1
  have hja : j ∉ a := fun hmem => hdisj hmem (List.mem_cons_self j b)
  refine ⟨by simp [List.length_append]; omega, ?_, ?_, ?_⟩
  · exact List.Nodup.sublist
      (List.Sublist.append_left (List.sublist_cons_self j b) a) hnd
  · simp [List.mem_append, hja, hjb]
  · have hfa : a.filter (fun k => (h k).status = .pending) = [] := by
      rw [List.filter_eq_nil_iff]
      intro k hk
      simpa using ha k hk
    simp [List.filter_append, hfa, hj]

/-- Core FIFO property of the worker loop: with the queue running and
unpaused, as many worker iterations as there are queued entries hand to the
callback exactly the entries whose status is PENDING, in list order. -/
lemma run_work_filter (cb : Callback) :
    ∀ (n : Nat) (s : QueueState), s.jobs.length = n →
      s.stopFlag = false → s.workerAlive = true → s.pauseFlag = false →
      s.jobs.Nodup →
      (run cb s (List.replicate n Op.work)).2
        = s.jobs.filter (fun k => (s.heap k).status = .pending) := by
  intro n
  induction n with
  | zero =>
    intro s hlen _ _ _ _
    have hnil : s.jobs = [] := List.length_eq_zero.mp hlen
    simp [hnil, run_nil]
  | succ n ih =>
    intro s hlen hstop halive hpause hnd
    cases hp : popFirstPending s.heap s.jobs with
    | none =>
      rw [run_work_pop_none cb hp]
      have hnp := popFirstPending_none hp
      symm
      rw [List.filter_eq_nil_iff]
      intro k hk
      simpa using hnp k hk
    | some pr =>
      obtain ⟨j, rest⟩ := pr
      obtain ⟨hlenp, hndr, hjr, hfil⟩ := pop_facts hp hnd
      have hws := workerStep_pop cb hstop halive hpause hp
      rw [List.replicate_succ, run_cons]
      have happly : applyOp cb s Op.work =
          ({ s with
              jobs := rest
              current := none
              heap := processHeap cb s.heap j }, some j) := hws
      rw [happly]
      have hrec := ih { s with
          jobs := rest
          current := none
          heap := processHeap cb s.heap j }
        (by rw [hlen] at hlenp; simpa using Nat.succ_injective hlenp.symm)
        hstop halive hpause hndr
      rw [hrec]
      have hcongr : rest.filter
            (fun k => (processHeap cb s.heap j k).status = .pending)
          = rest.filter (fun k => (s.heap k).status = .pending) := by
        apply List.filter_congr
        intro k hk
        have hkj : k ≠ j := fun hkj => hjr (hkj ▸ hk)
        rw [processHeap_ne hkj]
      rw [hcongr, hfil]
      rfl

/-! Stability invariants. -/

lemma setStatus_failed_keep {h : Heap} {j k : JobId}
    (hf : (h j).status = .failed) :
    (setStatus h k .failed j).status = .failed := by
  unfold setStatus
  split <;> simp [hf]

lemma failAll_failed_keep {j : JobId} :
    ∀ (l : List JobId) {h : Heap}, (h j).status = .failed →
      (failAll h l j).status = .failed := by
  intro l
  induction l with
  | nil => intro h hf; exact hf
  | cons x t ih =>
    intro h hf
    exact ih (setStatus_failed_keep hf)

/-- Master case analysis for a worker iteration: either it is a no-op, or it
pops the first PENDING job and processes it. -/
lemma workerStep_cases (cb : Callback) (s : QueueState) :
    workerStep cb s = (s, none) ∨
    ∃ j rest, popFirstPending s.heap s.jobs = some (j, rest) ∧
      s.stopFlag = false ∧ s.workerAlive = true ∧ s.pauseFlag = false ∧
      workerStep cb s =
        ({ s with
            jobs := rest
            current := none
            heap := processHeap cb s.heap j }, some j) := by
  cases hstop : s.stopFlag
  · cases halive : s.workerAlive
    · left; exact workerStep_of_not_alive cb halive
    · cases hpause : s.pauseFlag
      · cases hp : popFirstPending s.heap s.jobs with
        | none => left; exact workerStep_of_pop_none cb hp
        | some pr =>
          right
          obtain ⟨j, rest⟩ := pr
          have hws := workerStep_pop cb hstop halive hpause hp
          rw [hstop, halive, hpause] at hws
          exact ⟨j, rest, rfl, rfl, rfl, rfl, hws⟩
      · left; exact workerStep_of_paused cb hpause
  · left; unfold workerStep; simp [hstop]

lemma pop_mem_sub {h : Heap} {l : List JobId} {j : JobId} {rest : List JobId}
    (hp : popFirstPending h l = some (j, rest)) :
    j ∈ l ∧ (h j).status = .pending ∧ ∀ k ∈ rest, k ∈ l := by
  obtain ⟨a, b, hl, hr, _, hj⟩ := popFirstPending_some hp
  subst hl; subst hr
  refine ⟨by simp, hj, ?_⟩
  intro k hk
  rcases List.mem_append.mp hk with h1 | h1 <;> simp [h1]

/-- A FAILED status is never changed by any queue operation, and a FAILED
job is never handed to the callback. -/
lemma applyOp_failed_stable (cb : Callback) (s : QueueState) (op : Op)
    (j : JobId) (hf : (s.heap j).status = .failed) :
    ((applyOp cb s op).1.heap j).status = .failed ∧
    (applyOp cb s op).2 ≠ some j := by
  cases op with
  | add k =>
    refine ⟨?_, by simp [applyOp]⟩
    simp only [applyOp, addJob]
    split <;> simp [hf]
  | cancel k =>
    refine ⟨?_, by simp [applyOp]⟩
    simp only [applyOp, cancelJob]
    split
    · exact setStatus_failed_keep hf
    · split
      · exact setStatus_failed_keep hf
      · exact hf
  | remove k =>
    refine ⟨?_, by simp [applyOp]⟩
    simp only [applyOp, removeJob]
    split
    · exact hf
    · split
      · exact setStatus_failed_keep hf
      · split
        · exact setStatus_failed_keep hf
        · exact hf
  | clear =>
    refine ⟨?_, by simp [applyOp]⟩
    simp only [applyOp, clearQueue]
    exact failAll_failed_keep s.jobs hf
  | updateProgress k p eta speed =>
    refine ⟨?_, by simp [applyOp]⟩
    simp only [applyOp, updateJobProgress]
    split
    · rename_i hd
      have hkj : j ≠ k := by
        intro hkj
        rw [hkj] at hf
        rw [hf] at hd
        cases hd
      simp [hkj, hf]
    · exact hf
  | start =>
    refine ⟨?_, by simp [applyOp]⟩
    simp only [applyOp, startQueue, resumeQueue]
    split <;> exact hf
  | stop => exact ⟨hf, by simp [applyOp]⟩
  | pause => exact ⟨hf, by simp [applyOp]⟩
  | resume => exact ⟨hf, by simp [applyOp]⟩
  | work =>
    rcases workerStep_cases cb s with hcase | ⟨k, rest, hp, _, _, _, hcase⟩
    · simp [applyOp, hcase, hf]
    · obtain ⟨_, hkp, _⟩ := pop_mem_sub hp
      have hkj : k ≠ j := by
        intro hkj
        rw [hkj, hf] at hkp
        cases hkp
      constructor
      · show ((workerStep cb s).1.heap j).status = .failed
        rw [hcase]
        simpa [processHeap_ne (Ne.symm hkj)] using hf
      · show (workerStep cb s).2 ≠ some j
        rw [hcase]
        simp [hkj]

/-- Run form of the FAILED-stability invariant. -/
lemma run_failed_stable (cb : Callback) :
    ∀ (ops : List Op) (s : QueueState) (j : JobId),
      (s.heap j).status = .failed →
      ((run cb s ops).1.heap j).status = .failed ∧ j ∉ (run cb s ops).2 := by
  intro ops
  induction ops with
  | nil => intro s j hf; exact ⟨hf, by simp [run_nil]⟩
  | cons op t ih =>
    intro s j hf
    obtain ⟨h1, h2⟩ := applyOp_failed_stable cb s op j hf
    obtain ⟨h3, h4⟩ := ih (applyOp cb s op).1 j h1
    rw [run_cons]
    refine ⟨h3, ?_⟩
    simp only [List.mem_append]
    rintro (hmem | hmem)
    · cases hopt : (applyOp cb s op).2 with
      | none => rw [hopt] at hmem; cases hmem
      | some k =>
        rw [hopt] at hmem h2
        simp at hmem
        exact h2 (by rw [hmem])
    · exact h4 hmem

lemma setStatus_ne {h : Heap} {j k : JobId} (hjk : j ≠ k)
    (st : JobStatus) : setStatus h k st j = h j := by
  unfold setStatus
  simp [hjk]

lemma failAll_not_mem {j : JobId} :
    ∀ (l : List JobId) {h : Heap}, j ∉ l → failAll h l j = h j := by
  intro l
  induction l with
  | nil => intro h _; rfl
  | cons x t ih =>
    intro h hnm
    have hx : j ≠ x := fun hjx => hnm (by simp [hjx])
    have ht : j ∉ t := fun hjt => hnm (by simp [hjt])
    rw [failAll, ih ht, setStatus_ne hx]

lemma pop_length {h : Heap} {l : List JobId} {j : JobId} {rest : List JobId}
    (hp : popFirstPending h l = some (j, rest)) :
    l.length = rest.length + 1 := by
  obtain ⟨a, b, hl, hr, _, _⟩ := popFirstPending_some hp
  subst hl; subst hr
  simp [List.length_append]
  omega

lemma pop_mem_rest {h : Heap} {l : List JobId} {j : JobId}
    {rest : List JobId} (hp : popFirstPending h l = some (j, rest)) :
    ∀ x ∈ l, x ≠ j → x ∈ rest := by
  obtain ⟨a, b, hl, hr, _, _⟩ := popFirstPending_some hp
  subst hl; subst hr
  intro x hx hxj
  rcases List.mem_append.mp hx with h1 | h1
  · exact List.mem_append.mpr (Or.inl h1)
  · rcases List.mem_cons.mp h1 with h2 | h2
    · exact absurd h2 hxj
    · exact List.mem_append.mpr (Or.inr h2)

/-- A job absent from the pending list can only re-enter it through an add
of that very job, and is never handed to the callback in the meantime. -/
lemma applyOp_notmem_stable (cb : Callback) (s : QueueState) (op : Op)
    (j : JobId) (hnm : j ∉ s.jobs) (hne : op ≠ Op.add j) :
    j ∉ (applyOp cb s op).1.jobs ∧ (applyOp cb s op).2 ≠ some j := by
  cases op with
  | add k =>
    have hkj : k ≠ j := fun hkj => hne (by rw [hkj])
    refine ⟨?_, by simp [applyOp]⟩
    simp only [applyOp, addJob]
    split
    · exact hnm
    · intro hm
      rcases List.mem_append.mp hm with h1 | h1
      · exact hnm h1
      · simp at h1
        exact hkj h1.symm
  | cancel k =>
    refine ⟨?_, by simp [applyOp]⟩
    simp only [applyOp, cancelJob]
    split
    · exact hnm
    · split
      · exact hnm
      · exact hnm
  | remove k =>
    refine ⟨?_, by simp [applyOp]⟩
    simp only [applyOp, removeJob]
    split
    · intro hm
      exact hnm (List.mem_of_mem_erase hm)
    · split
      · exact hnm
      · split
        · exact hnm
        · exact hnm
  | clear => exact ⟨by simp [applyOp, clearQueue], by simp [applyOp]⟩
  | updateProgress k p eta speed =>
    refine ⟨?_, by simp [applyOp]⟩
    simp only [applyOp, updateJobProgress]
    split
    · exact hnm
    · exact hnm
  | start =>
    refine ⟨?_, by simp [applyOp]⟩
    simp only [applyOp, startQueue, resumeQueue]
    split
    · exact hnm
    · exact hnm
  | stop => exact ⟨hnm, by simp [applyOp]⟩
  | pause => exact ⟨hnm, by simp [applyOp]⟩
  | resume => exact ⟨hnm, by simp [applyOp]⟩
  | work =>
    rcases workerStep_cases cb s with hcase | ⟨k, rest, hp, _, _, _, hcase⟩
    · simp [applyOp, hcase, hnm]
    · obtain ⟨hk, _, hsub⟩ := pop_mem_sub hp
      have hkj : k ≠ j := fun hkj => hnm (hkj ▸ hk)
      constructor
      · show j ∉ (workerStep cb s).1.jobs
        rw [hcase]
        intro hm
        exact hnm (hsub j hm)
      · show (workerStep cb s).2 ≠ some j
        rw [hcase]
        simp [hkj]

/-- Run form: absent jobs stay absent, and are never processed. -/
lemma run_notmem_stable (cb : Callback) :
    ∀ (ops : List Op) (s : QueueState) (j : JobId), j ∉ s.jobs →
      (∀ op ∈ ops, op ≠ Op.add j) →
      j ∉ (run cb s ops).1.jobs ∧ j ∉ (run cb s ops).2 := by
  intro ops
  induction ops with
  | nil => intro s j hnm _; exact ⟨hnm, by simp [run_nil]⟩
  | cons op t ih =>
    intro s j hnm hops
    obtain ⟨h1, h2⟩ := applyOp_notmem_stable cb s op j hnm
      (hops op (List.mem_cons_self op t))
    obtain ⟨h3, h4⟩ := ih (applyOp cb s op).1 j h1
      (fun o ho => hops o (List.mem_cons_of_mem op ho))
    rw [run_cons]
    refine ⟨h3, ?_⟩
    simp only [List.mem_append]
    rintro (hmem | hmem)
    · cases hopt : (applyOp cb s op).2 with
      | none => rw [hopt] at hmem; cases hmem
      | some k =>
        rw [hopt] at hmem h2
        simp at hmem
        exact h2 (by rw [hmem])
    · exact h4 hmem

/-- While the pause event is set, no operation other than start or resume
clears it, and no job is ever handed to the callback. -/
lemma applyOp_paused (cb : Callback) (s : QueueState) (op : Op)
    (hpv : s.pauseFlag = true) (h1 : op ≠ Op.start) (h2 : op ≠ Op.resume) :
    (applyOp cb s op).1.pauseFlag = true ∧ (applyOp cb s op).2 = none := by
  cases op with
  | add k =>
    refine ⟨?_, by simp [applyOp]⟩
    simp only [applyOp, addJob]
    split
    · exact hpv
    · exact hpv
  | cancel k =>
    refine ⟨?_, by simp [applyOp]⟩
    simp only [applyOp, cancelJob]
    split
    · exact hpv
    · split
      · exact hpv
      · exact hpv
  | remove k =>
    refine ⟨?_, by simp [applyOp]⟩
    simp only [applyOp, removeJob]
    split
    · exact hpv
    · split
      · exact hpv
      · split
        · exact hpv
        · exact hpv
  | clear => exact ⟨hpv, by simp [applyOp]⟩
  | updateProgress k p eta speed =>
    refine ⟨?_, by simp [applyOp]⟩
    simp only [applyOp, updateJobProgress]
    split
    · exact hpv
    · exact hpv
  | start => exact absurd rfl h1
  | stop => exact ⟨hpv, by simp [applyOp]⟩
  | pause => exact ⟨rfl, by simp [applyOp]⟩
  | resume => exact absurd rfl h2
  | work =>
    have := workerStep_of_paused cb hpv
    constructor
    · show (workerStep cb s).1.pauseFlag = true
      rw [this]; exact hpv
    · show (workerStep cb s).2 = none
      rw [this]

/-- Run form: with the pause event set and no start/resume in the trace, the
pause event stays set and nothing is ever handed to the callback. -/
lemma run_paused (cb : Callback) :
    ∀ (ops : List Op) (s : QueueState), s.pauseFlag = true →
      (∀ op ∈ ops, op ≠ Op.start ∧ op ≠ Op.resume) →
      (run cb s ops).1.pauseFlag = true ∧ (run cb s ops).2 = [] := by
  intro ops
  induction ops with
  | nil => intro s hpv _; exact ⟨hpv, by simp [run_nil]⟩
  | cons op t ih =>
    intro s hpv hops
    obtain ⟨hne1, hne2⟩ := hops op (List.mem_cons_self op t)
    obtain ⟨h1, h2⟩ := applyOp_paused cb s op hpv hne1 hne2
    obtain ⟨h3, h4⟩ := ih (applyOp cb s op).1 h1
      (fun o ho => hops o (List.mem_cons_of_mem op ho))
    rw [run_cons]
    exact ⟨h3, by rw [h2, h4]; rfl⟩

/-- The capacity never changes and the pending count never exceeds it. -/
lemma applyOp_capacity (cb : Callback) (s : QueueState) (op : Op)
    (hle : s.jobs.length ≤ s.maxSize) :
    (applyOp cb s op).1.maxSize = s.maxSize ∧
    (applyOp cb s op).1.jobs.length ≤ s.maxSize := by
  cases op with
  | add k =>
    simp only [applyOp, addJob]
    split
    · exact ⟨rfl, hle⟩
    · rename_i hlt
      simp only [not_le] at hlt
      exact ⟨rfl, by simp [List.length_append]; omega⟩
  | cancel k =>
    simp only [applyOp, cancelJob]
    split
    · exact ⟨rfl, hle⟩
    · split
      · exact ⟨rfl, hle⟩
      · exact ⟨rfl, hle⟩
  | remove k =>
    simp only [applyOp, removeJob]
    split
    · refine ⟨rfl, le_trans (List.Sublist.length_le ?_) hle⟩
      exact List.erase_sublist ..
    · split
      · exact ⟨rfl, hle⟩
      · split
        · exact ⟨rfl, hle⟩
        · exact ⟨rfl, hle⟩
  | clear => exact ⟨rfl, by simp [applyOp, clearQueue]⟩
  | updateProgress k p eta speed =>
    simp only [applyOp, updateJobProgress]
    split
    · exact ⟨rfl, hle⟩
    · exact ⟨rfl, hle⟩
  | start =>
    simp only [applyOp, startQueue, resumeQueue]
    split
    · exact ⟨rfl, hle⟩
    · exact ⟨rfl, hle⟩
  | stop => exact ⟨rfl, hle⟩
  | pause => exact ⟨rfl, hle⟩
  | resume => exact ⟨rfl, hle⟩
  | work =>
    rcases workerStep_cases cb s with hcase | ⟨k, rest, hp, _, _, _, hcase⟩
    · constructor
      · show (workerStep cb s).1.maxSize = s.maxSize
        rw [hcase]
      · show (workerStep cb s).1.jobs.length ≤ s.maxSize
        rw [hcase]; exact hle
    · have hlen := pop_length hp
      constructor
      · show (workerStep cb s).1.maxSize = s.maxSize
        rw [hcase]
      · show (workerStep cb s).1.jobs.length ≤ s.maxSize
        rw [hcase]
        simp only []
        omega

/-- Run form of the capacity invariant. -/
lemma run_capacity (cb : Callback) :
    ∀ (ops : List Op) (s : QueueState), s.jobs.length ≤ s.maxSize →
      (run cb s ops).1.maxSize = s.maxSize ∧
      (run cb s ops).1.jobs.length ≤ s.maxSize := by
  intro ops
  induction ops with
  | nil => intro s hle; exact ⟨rfl, hle⟩
  | cons op t ih =>
    intro s hle
    obtain ⟨h1, h2⟩ := applyOp_capacity cb s op hle
    obtain ⟨h3, h4⟩ := ih (applyOp cb s op).1 (h1 ▸ h2)
    rw [run_cons]
    exact ⟨by rw [h3, h1], by rw [h1] at h3 h4; exact h4⟩

/-- A cancelled (FAILED) job left in the pending list stays there under
every operation except a remove of that job or a clear of the queue; in
particular the worker skips it without dropping it from the list. -/
lemma applyOp_failedmem (cb : Callback) (s : QueueState) (op : Op)
    (j : JobId) (hmem : j ∈ s.jobs) (hf : (s.heap j).status = .failed)
    (hne1 : op ≠ Op.remove j) (hne2 : op ≠ Op.clear) :
    j ∈ (applyOp cb s op).1.jobs := by
  cases op with
  | add k =>
    simp only [applyOp, addJob]
    split
    · exact hmem
    · exact List.mem_append.mpr (Or.inl hmem)
  | cancel k =>
    simp only [applyOp, cancelJob]
    split
    · exact hmem
    · split
      · exact hmem
      · exact hmem
  | remove k =>
    have hkj : k ≠ j := fun hkj => hne1 (by rw [hkj])
    simp only [applyOp, removeJob]
    split
    · exact (List.mem_erase_of_ne (Ne.symm hkj)).mpr hmem
    · split
      · exact hmem
      · split
        · exact hmem
        · exact hmem
  | clear => exact absurd rfl hne2
  | updateProgress k p eta speed =>
    simp only [applyOp, updateJobProgress]
    split
    · exact hmem
    · exact hmem
  | start =>
    simp only [applyOp, startQueue, resumeQueue]
    split
    · exact hmem
    · exact hmem
  | stop => exact hmem
  | pause => exact hmem
  | resume => exact hmem
  | work =>
    rcases workerStep_cases cb s with hcase | ⟨k, rest, hp, _, _, _, hcase⟩
    · show j ∈ (workerStep cb s).1.jobs
      rw [hcase]; exact hmem
    · obtain ⟨_, hkp, _⟩ := pop_mem_sub hp
      have hkj : j ≠ k := by
        intro hkj
        rw [← hkj, hf] at hkp
        cases hkp
      show j ∈ (workerStep cb s).1.jobs
      rw [hcase]
      exact pop_mem_rest hp j hmem hkj

/-- Run form: a cancelled job stays in the pending list (and counted by
get_queue_size) for ever, absent a remove of it or a clear. -/
lemma run_failedmem (cb : Callback) :
    ∀ (ops : List Op) (s : QueueState) (j : JobId), j ∈ s.jobs →
      (s.heap j).status = .failed →
      (∀ op ∈ ops, op ≠ Op.remove j ∧ op ≠ Op.clear) →
      j ∈ (run cb s ops).1.jobs ∧
      ((run cb s ops).1.heap j).status = .failed := by
  intro ops
  induction ops with
  | nil => intro s j hmem hf _; exact ⟨hmem, hf⟩
  | cons op t ih =>
    intro s j hmem hf hops
    obtain ⟨hne1, hne2⟩ := hops op (List.mem_cons_self op t)
    have h1 := applyOp_failedmem cb s op j hmem hf hne1 hne2
    have h2 := (applyOp_failed_stable cb s op j hf).1
    obtain ⟨h3, h4⟩ := ih (applyOp cb s op).1 j h1 h2
      (fun o ho => hops o (List.mem_cons_of_mem op ho))
    rw [run_cons]
    exact ⟨h3, h4⟩

/-- A COMPLETED job that is neither queued nor current keeps its status
under every operation except a re-add of that job. -/
lemma applyOp_completed (cb : Callback) (s : QueueState) (op : Op)
    (j : JobId) (hc : (s.heap j).status = .completed) (hnm : j ∉ s.jobs)
    (hcur : s.current ≠ some j) (hne : op ≠ Op.add j) :
    ((applyOp cb s op).1.heap j).status = .completed ∧
    j ∉ (applyOp cb s op).1.jobs ∧
    (applyOp cb s op).1.current ≠ some j := by
  have hmem := applyOp_notmem_stable cb s op j hnm hne
  refine ⟨?_, hmem.1, ?_⟩
  · cases op with
    | add k =>
      simp only [applyOp, addJob]
      split
      · exact hc
      · exact hc
    | cancel k =>
      simp only [applyOp, cancelJob]
      split
      · rename_i hck
        have hkj : j ≠ k := by
          intro hkj
          rw [← hkj] at hck
          exact hcur hck
        simpa [setStatus_ne hkj] using hc
      · split
        · rename_i hkmem
          have hkj : j ≠ k := fun hkj => hnm (hkj ▸ hkmem)
          simpa [setStatus_ne hkj] using hc
        · exact hc
    | remove k =>
      simp only [applyOp, removeJob]
      split
      · exact hc
      · split
        · rename_i hck
          have hkj : j ≠ k := by
            intro hkj
            rw [← hkj] at hck
            exact hcur hck
          simpa [setStatus_ne hkj] using hc
        · split
          · rename_i hkp
            have hkj : j ≠ k := by
              intro hkj
              rw [← hkj, hc] at hkp
              cases hkp
            simpa [setStatus_ne hkj] using hc
          · exact hc
    | clear =>
      simp only [applyOp, clearQueue]
      rw [failAll_not_mem s.jobs hnm]
      exact hc
    | updateProgress k p eta speed =>
      simp only [applyOp, updateJobProgress]
      split
      · by_cases hjk : j = k
        · subst hjk; simp [hc]
        · simp [hjk, hc]
      · exact hc
    | start =>
      simp only [applyOp, startQueue, resumeQueue]
      split
      · exact hc
      · exact hc
    | stop => exact hc
    | pause => exact hc
    | resume => exact hc
    | work =>
      rcases workerStep_cases cb s with hcase | ⟨k, rest, hp, _, _, _, hcase⟩
      · show ((workerStep cb s).1.heap j).status = .completed
        rw [hcase]; exact hc
      · obtain ⟨hkmem, _, _⟩ := pop_mem_sub hp
        have hkj : j ≠ k := fun hkj => hnm (hkj ▸ hkmem)
        show ((workerStep cb s).1.heap j).status = .completed
        rw [hcase]
        simpa [processHeap_ne hkj] using hc
  · cases op with
    | add k =>
      simp only [applyOp, addJob]
      split
      · exact hcur
      · exact hcur
    | cancel k =>
      simp only [applyOp, cancelJob]
      split
      · exact hcur
      · split
        · exact hcur
        · exact hcur
    | remove k =>
      simp only [applyOp, removeJob]
      split
      · exact hcur
      · split
        · exact hcur
        · split
          · exact hcur
          · exact hcur
    | clear => exact hcur
    | updateProgress k p eta speed =>
      simp only [applyOp, updateJobProgress]
      split
      · exact hcur
      · exact hcur
    | start =>
      simp only [applyOp, startQueue, resumeQueue]
      split
      · exact hcur
      · exact hcur
    | stop => exact hcur
    | pause => exact hcur
    | resume => exact hcur
    | work =>
      rcases workerStep_cases cb s with hcase | ⟨k, rest, hp, _, _, _, hcase⟩
      · show (workerStep cb s).1.current ≠ some j
        rw [hcase]; exact hcur
      · show (workerStep cb s).1.current ≠ some j
        rw [hcase]
        simp

/-- Run form of the COMPLETED-stability invariant. -/
lemma run_completed (cb : Callback) :
    ∀ (ops : List Op) (s : QueueState) (j : JobId),
      (s.heap j).status = .completed → j ∉ s.jobs →
      s.current ≠ some j → (∀ op ∈ ops, op ≠ Op.add j) →
      ((run cb s ops).1.heap j).status = .completed := by
  intro ops
  induction ops with
  | nil => intro s j hc _ _ _; exact hc
  | cons op t ih =>
    intro s j hc hnm hcur hops
    obtain ⟨h1, h2, h3⟩ := applyOp_completed cb s op j hc hnm hcur
      (hops op (List.mem_cons_self op t))
    rw [run_cons]
    exact ih (applyOp cb s op).1 j h1 h2 h3
      (fun o ho => hops o (List.mem_cons_of_mem op ho))

/-- Cancels and removes never reorder the pending list: they leave it a
sublist of what it was, and touch none of the worker-relevant flags. -/
lemma applyOp_cancel_remove (cb : Callback) (s : QueueState) (op : Op)
    (hop : (∃ k, op = Op.cancel k) ∨ ∃ k, op = Op.remove k) :
    (applyOp cb s op).1.jobs.Sublist s.jobs ∧
    (applyOp cb s op).1.stopFlag = s.stopFlag ∧
    (applyOp cb s op).1.pauseFlag = s.pauseFlag ∧
    (applyOp cb s op).1.workerAlive = s.workerAlive ∧
    (applyOp cb s op).2 = none := by
  rcases hop with ⟨k, rfl⟩ | ⟨k, rfl⟩
  · refine ⟨?_, ?_, ?_, ?_, by simp [applyOp]⟩ <;>
      simp only [applyOp, cancelJob] <;> split
    · exact List.Sublist.refl s.jobs
    all_goals first
      | (split
         · exact List.Sublist.refl s.jobs
         · exact List.Sublist.refl s.jobs)
      | rfl
      | (split
         · rfl
         · rfl)
  · refine ⟨?_, ?_, ?_, ?_, by simp [applyOp]⟩ <;>
      simp only [applyOp, removeJob] <;> split
    · exact List.erase_sublist ..
    all_goals first
      | (split
         · exact List.Sublist.refl s.jobs
         · split
           · exact List.Sublist.refl s.jobs
           · exact List.Sublist.refl s.jobs)
      | rfl
      | (split
         · rfl
         · (split
            · rfl
            · rfl))

/-- Run form: a trace of cancels and removes leaves the pending list a
sublist of the original one and preserves the worker-relevant flags. -/
lemma run_cancel_remove (cb : Callback) :
    ∀ (mids : List Op) (s : QueueState),
      (∀ op ∈ mids, (∃ k, op = Op.cancel k) ∨ ∃ k, op = Op.remove k) →
      (run cb s mids).1.jobs.Sublist s.jobs ∧
      (run cb s mids).1.stopFlag = s.stopFlag ∧
      (run cb s mids).1.pauseFlag = s.pauseFlag ∧
      (run cb s mids).1.workerAlive = s.workerAlive ∧
      (run cb s mids).2 = [] := by
  intro mids
  induction mids with
  | nil =>
    intro s _
    exact ⟨List.Sublist.refl s.jobs, rfl, rfl, rfl, by simp [run_nil]⟩
  | cons op t ih =>
    intro s hops
    obtain ⟨h1, h2, h3, h4, h5⟩ := applyOp_cancel_remove cb s op
      (hops op (List.mem_cons_self op t))
    obtain ⟨g1, g2, g3, g4, g5⟩ := ih (applyOp cb s op).1
      (fun o ho => hops o (List.mem_cons_of_mem op ho))
    rw [run_cons]
    exact ⟨List.Sublist.trans g1 h1, by rw [g2, h2], by rw [g3, h3],
      by rw [g4, h4], by rw [h5, g5]; rfl⟩

/-- Exception path of the DownloadQueue processing phase: the status always
ends FAILED, and error_message is whatever record the callback left — the
exception message itself is never captured by this queue. -/
lemma processHeap_exc {cb : Callback} {h : Heap} {j : JobId} {msg : String}
    (hexc : (cb j (setStatus h j .downloading j)).2 = some msg) :
    (processHeap cb h j j).status = .failed ∧
    (processHeap cb h j j).error_message
      = (cb j (setStatus h j .downloading j)).1.error_message := by
  unfold processHeap
  rcases hres : cb j (setStatus h j .downloading j) with ⟨r, exc⟩
  rw [hres] at hexc
  simp only [] at hexc
  subst hexc
  by_cases hfail : r.status = JobStatus.failed <;> simp [setStatus, hfail]

/-- Exception or not, a record the callback left FAILED is kept exactly as
the callback left it (a cancellation is never overwritten). -/
lemma processHeap_keep_failed {cb : Callback} {h : Heap} {j : JobId}
    (hfail : (cb j (setStatus h j .downloading j)).1.status = .failed) :
    processHeap cb h j j = (cb j (setStatus h j .downloading j)).1 := by
  unfold processHeap
  rcases hres : cb j (setStatus h j .downloading j) with ⟨r, exc⟩
  rw [hres] at hfail
  simp only [] at hfail
  cases exc <;> simp [setStatus, hfail]

/-- Exception path of the ConversionQueue processing phase when the status
is still CONVERTING: FAILED, with the exception message captured into
error_message. -/
lemma processHeapC_exc {cb : CCallback} {h : CHeap} {j : JobId}
    {msg : String}
    (hexc : (cb j (convStart h j j)).2 = some msg)
    (hst : (cb j (convStart h j j)).1.status = .converting) :
    (processHeapC cb h j j).status = .failed ∧
    (processHeapC cb h j j).error_message = some msg := by
  unfold processHeapC
  rcases hres : cb j (convStart h j j) with ⟨r, exc⟩
  rw [hres] at hexc hst
  simp only [] at hexc hst
  subst hexc
  simp [hst]

/-- A record the conversion callback left in a non-CONVERTING state is kept
exactly as the callback left it (on exception as on normal return). -/
lemma processHeapC_keep {cb : CCallback} {h : CHeap} {j : JobId}
    (hst : (cb j (convStart h j j)).1.status ≠ .converting) :
    processHeapC cb h j j = (cb j (convStart h j j)).1 := by
  unfold processHeapC
  rcases hres : cb j (convStart h j j) with ⟨r, exc⟩
  rw [hres] at hst
  simp only [] at hst
  cases exc <;> simp [hst]

/-- Start on a fresh queue, then a batch of adds within capacity: same as
running the remaining trace from a running, unpaused queue holding exactly
the added jobs. -/
lemma run_start_adds (cb : Callback) (heap : Heap) (js : List JobId)
    (n : Nat) (mids : List Op) (hlen : js.length ≤ n) :
    run cb (initQueue n heap) (Op.start :: (js.map Op.add ++ mids))
      = run cb { jobs := js
                 current := none
                 stopFlag := false
                 pauseFlag := false
                 workerAlive := true
                 maxSize := n
                 heap := heap } mids := by
  rw [run_cons]
  have h0 : applyOp cb (initQueue n heap) Op.start =
      ({ jobs := []
         current := none
         stopFlag := false
         pauseFlag := false
         workerAlive := true
         maxSize := n
         heap := heap }, none) := by
    simp [applyOp, startQueue, initQueue]
  rw [h0, run_append]
  have hadds := run_adds cb js
    { jobs := []
      current := none
      stopFlag := false
      pauseFlag := false
      workerAlive := true
      maxSize := n
      heap := heap }
    (by simpa using hlen)
  simp only [List.nil_append] at hadds
  rw [hadds]
  simp

/-! Claim theorems. -/

/-- Claim C9: update_job_progress changes nothing at all unless the job
status is the processing state DOWNLOADING; when it is DOWNLOADING it writes
the progress clamped into the interval from 0 to 100. -/
theorem c9_update_progress_clamp (s : QueueState) (j : JobId) (p : ℚ)
    (eta speed : Option String) :
    ((s.heap j).status ≠ .downloading →
      updateJobProgress s j p eta speed = s) ∧
    ((s.heap j).status = .downloading →
      ((updateJobProgress s j p eta speed).heap j).progress = clampProgress p
        ∧ 0 ≤ clampProgress p ∧ clampProgress p ≤ 100) := by
  constructor
  · intro hne
    unfold updateJobProgress
    simp [hne]
  · intro hd
    refine ⟨?_, le_max_left 0 _, max_le (by norm_num) (min_le_left 100 p)⟩
    unfold updateJobProgress
    simp [hd]

/-- Witness for C9 at a concrete state: progress 150 is clamped to 100 on a
DOWNLOADING job, and the call is a no-op on a PENDING job. -/
theorem c9_update_progress_clamp_witness :
    (((initQueue 5 downloadingHeap).heap 0).status = .downloading →
      (((updateJobProgress (initQueue 5 downloadingHeap) 0 150 none none).heap
          0).progress = clampProgress 150
        ∧ 0 ≤ clampProgress 150 ∧ clampProgress 150 ≤ 100)) ∧
    (((initQueue 5 pendingHeap).heap 0).status ≠ .downloading →
      updateJobProgress (initQueue 5 pendingHeap) 0 150 none none
        = initQueue 5 pendingHeap) :=
  ⟨(c9_update_progress_clamp (initQueue 5 downloadingHeap) 0 150 none none).2,
   (c9_update_progress_clamp (initQueue 5 pendingHeap) 0 150 none none).1⟩

/-- Claim C10: remove_job on a job whose status is PENDING but which is
neither in the pending list nor the current job — including a job never
added to the queue at all — returns true and marks it FAILED: the
popped-but-not-current branch never checks that the job was enqueued. -/
theorem c10_remove_unqueued_pending (s : QueueState) (j : JobId)
    (hpd : (s.heap j).status = .pending) (hnm : j ∉ s.jobs)
    (hcur : s.current ≠ some j) :
    (removeJob s j).1 = true ∧
    ((removeJob s j).2.heap j).status = .failed ∧
    (removeJob s j).2.jobs = s.jobs := by
  unfold removeJob
  simp [hnm, hcur, hpd, setStatus]

/-- Witness for C10: a fresh queue on which nothing was ever added still
answers true to remove_job of job 0 and marks it FAILED. -/
theorem c10_remove_unqueued_pending_witness :
    (removeJob (initQueue 5 pendingHeap) 0).1 = true ∧
    ((removeJob (initQueue 5 pendingHeap) 0).2.heap 0).status = .failed ∧
    (removeJob (initQueue 5 pendingHeap) 0).2.jobs
      = (initQueue 5 pendingHeap).jobs :=
  c10_remove_unqueued_pending (initQueue 5 pendingHeap) 0 rfl
    (by simp [initQueue]) (by simp [initQueue])

/-- Claim C2: along any trace from a fresh queue the pending count never
exceeds the capacity; in any state respecting that bound, add_job returns
false exactly when the pending count equals the capacity; and a rejected
add leaves the whole state, hence the pending list, unchanged. -/
theorem c2_capacity (cb : Callback) (n : Nat) (heap : Heap) (ops : List Op)
    (s : QueueState) (j : JobId) (hle : s.jobs.length ≤ s.maxSize) :
    getQueueSize (run cb (initQueue n heap) ops).1 ≤ n ∧
    ((addJob s j).1 = false ↔ getQueueSize s = s.maxSize) ∧
    ((addJob s j).1 = false → (addJob s j).2 = s) := by
  refine ⟨?_, ?_, ?_⟩
  · have hrun := run_capacity cb ops (initQueue n heap) (by simp [initQueue])
    simpa [initQueue, getQueueSize] using hrun.2
  · unfold addJob getQueueSize
    by_cases hc : s.maxSize ≤ s.jobs.length
    · simp only [if_pos hc]
      simp
      omega
    · simp only [if_neg hc]
      simp
      omega
  · intro hf
    by_cases hc : s.maxSize ≤ s.jobs.length
    · simp [addJob, hc]
    · simp [addJob, hc] at hf

/-- Witness for C2 on a queue of capacity 1 holding one job: the next add
is rejected and changes nothing, matching size = capacity. -/
theorem c2_capacity_witness :
    getQueueSize (run idCallback (initQueue 1 pendingHeap) [Op.add 0]).1 ≤ 1 ∧
    ((addJob (run idCallback (initQueue 1 pendingHeap) [Op.add 0]).1 1).1
        = false
      ↔ getQueueSize (run idCallback (initQueue 1 pendingHeap) [Op.add 0]).1
        = (run idCallback (initQueue 1 pendingHeap) [Op.add 0]).1.maxSize) ∧
    ((addJob (run idCallback (initQueue 1 pendingHeap) [Op.add 0]).1 1).1
        = false →
      (addJob (run idCallback (initQueue 1 pendingHeap) [Op.add 0]).1 1).2
        = (run idCallback (initQueue 1 pendingHeap) [Op.add 0]).1) :=
  c2_capacity idCallback 1 pendingHeap [Op.add 0]
    (run idCallback (initQueue 1 pendingHeap) [Op.add 0]).1 1 (by decide)

/-- Claim C5: a freshly constructed queue is paused; along any trace with
no start and no resume the queue stays paused and no job is ever dequeued
and handed to the callback; start() with no live worker clears the stop and
pause flags (starts unpaused); start() with a live worker is exactly
resume(). -/
theorem c5_start_paused (cb : Callback) (n : Nat) (heap : Heap)
    (ops : List Op) (s : QueueState)
    (hops : ∀ op ∈ ops, op ≠ Op.start ∧ op ≠ Op.resume) :
    isPaused (initQueue n heap) = true ∧
    (run cb (initQueue n heap) ops).2 = [] ∧
    isPaused (run cb (initQueue n heap) ops).1 = true ∧
    (s.workerAlive = false →
      (startQueue s).stopFlag = false ∧ (startQueue s).pauseFlag = false ∧
        (startQueue s).workerAlive = true) ∧
    (s.workerAlive = true → startQueue s = resumeQueue s) := by
  have hrun := run_paused cb ops (initQueue n heap) rfl hops
  refine ⟨rfl, hrun.2, hrun.1, ?_, ?_⟩
  · intro halive
    unfold startQueue
    simp [halive]
  · intro halive
    unfold startQueue
    simp [halive]

/-- Witness for C5: two jobs added and two worker iterations on a fresh,
never-started queue hand nothing to the callback and leave it paused. -/
theorem c5_start_paused_witness :
    isPaused (initQueue 5 pendingHeap) = true ∧
    (run idCallback (initQueue 5 pendingHeap)
        [Op.add 0, Op.add 1, Op.work, Op.work]).2 = [] ∧
    isPaused (run idCallback (initQueue 5 pendingHeap)
        [Op.add 0, Op.add 1, Op.work, Op.work]).1 = true ∧
    ((initQueue 5 pendingHeap).workerAlive = false →
      (startQueue (initQueue 5 pendingHeap)).stopFlag = false ∧
        (startQueue (initQueue 5 pendingHeap)).pauseFlag = false ∧
        (startQueue (initQueue 5 pendingHeap)).workerAlive = true) ∧
    ((initQueue 5 pendingHeap).workerAlive = true →
      startQueue (initQueue 5 pendingHeap)
        = resumeQueue (initQueue 5 pendingHeap)) :=
  c5_start_paused idCallback 5 pendingHeap
    [Op.add 0, Op.add 1, Op.work, Op.work] (initQueue 5 pendingHeap)
    (by decide)

/-- Claim C3: cancel_job on a job still in the pending list and not current
returns true and marks it FAILED in place, without removing it from the
list; that job is never afterwards handed to the callback, whatever
operations follow; and in any state cancel_job returns true exactly when
the job matches the current job or a job in the pending list. -/
theorem c3_cancel_pending (cb : Callback) (s : QueueState) (j : JobId)
    (ops : List Op) (hmem : j ∈ s.jobs) (hcur : s.current ≠ some j) :
    (cancelJob s j).1 = true ∧
    (cancelJob s j).2.jobs = s.jobs ∧
    ((cancelJob s j).2.heap j).status = .failed ∧
    j ∉ (run cb (cancelJob s j).2 ops).2 ∧
    (∀ (t : QueueState) (k : JobId),
      ((cancelJob t k).1 = true ↔ (t.current = some k ∨ k ∈ t.jobs))) := by
  have hstate : cancelJob s j
      = (true, { s with heap := setStatus s.heap j .failed }) := by
    unfold cancelJob
    simp [hcur, hmem]
  have hfail :
      (({ s with heap := setStatus s.heap j .failed } : QueueState).heap
        j).status = .failed := by
    simp [setStatus]
  refine ⟨by rw [hstate], by rw [hstate], by rw [hstate]; exact hfail,
    ?_, ?_⟩
  · rw [hstate]
    exact (run_failed_stable cb ops _ j hfail).2
  · intro t k
    unfold cancelJob
    by_cases h1 : t.current = some k
    · simp [h1]
    · by_cases h2 : k ∈ t.jobs
      · simp [h1, h2]
      · simp [h1, h2]

/-- Witness for C3: cancelling queued job 0 of the demo queue succeeds,
marks it FAILED in place, and two following worker iterations never hand
it to the callback. -/
theorem c3_cancel_pending_witness :
    (cancelJob demoState 0).1 = true ∧
    (cancelJob demoState 0).2.jobs = demoState.jobs ∧
    ((cancelJob demoState 0).2.heap 0).status = .failed ∧
    0 ∉ (run idCallback (cancelJob demoState 0).2 [Op.work, Op.work]).2 ∧
    (∀ (t : QueueState) (k : JobId),
      ((cancelJob t k).1 = true ↔ (t.current = some k ∨ k ∈ t.jobs))) :=
  c3_cancel_pending idCallback demoState 0 [Op.work, Op.work]
    (by decide) (by decide)

/-- Claim C1: FIFO order.  From a fresh started queue, after adding a batch
of distinct pending jobs and then any batch of cancels and removes: the
pending list is still an in-order sublist of the insertion order, the
worker iterations hand to the callback exactly the entries still PENDING at
scan time, in insertion order; and with no cancels or removes at all the
jobs are handed to the callback exactly in the order added. -/
theorem c1_fifo (cb : Callback) (heap : Heap) (js : List JobId)
    (mids : List Op) (n : Nat) (s1 : QueueState)
    (hnd : js.Nodup) (hlen : js.length ≤ n)
    (hpend : ∀ j ∈ js, (heap j).status = .pending)
    (hmids : ∀ op ∈ mids, (∃ k, op = Op.cancel k) ∨ ∃ k, op = Op.remove k)
    (hs1 : s1 = (run cb (initQueue n heap)
      (Op.start :: (js.map Op.add ++ mids))).1) :
    s1.jobs.Sublist js ∧
    (run cb s1 (List.replicate s1.jobs.length Op.work)).2
      = s1.jobs.filter (fun k => (s1.heap k).status = .pending) ∧
    (mids = [] →
      (run cb s1 (List.replicate js.length Op.work)).2 = js) := by
  rw [run_start_adds cb heap js n mids hlen] at hs1
  obtain ⟨g1, g2, g3, g4, _⟩ := run_cancel_remove cb mids
    { jobs := js
      current := none
      stopFlag := false
      pauseFlag := false
      workerAlive := true
      maxSize := n
      heap := heap } hmids
  rw [← hs1] at g1 g2 g3 g4
  simp only [] at g1 g2 g3 g4
  refine ⟨g1, ?_, ?_⟩
  · exact run_work_filter cb s1.jobs.length s1 rfl g2 g4 g3
      (List.Nodup.sublist g1 hnd)
  · intro hmids_nil
    subst hmids_nil
    rw [run_nil] at hs1
    subst hs1
    have := run_work_filter cb js.length
      { jobs := js
        current := none
        stopFlag := false
        pauseFlag := false
        workerAlive := true
        maxSize := n
        heap := heap } rfl rfl rfl rfl hnd
    rw [this]
    simp only []
    rw [List.filter_eq_self]
    intro j hj
    simp [hpend j hj]

/-- Witness for C1: jobs 0, 1, 2 added to a fresh started capacity-5 queue,
then job 1 cancelled and job 2 removed: the worker hands over exactly job 0
(the surviving pending entry 0 plus nothing else in this heap — entry 1
stays in the list FAILED and is skipped); with no cancels the order is
0, 1, 2. -/
theorem c1_fifo_witness :
    ((run idCallback (initQueue 5 pendingHeap)
        (Op.start :: ([0, 1, 2].map Op.add
          ++ [Op.cancel 1, Op.remove 2]))).1.jobs.Sublist [0, 1, 2]) ∧
    ((run idCallback
        (run idCallback (initQueue 5 pendingHeap)
          (Op.start :: ([0, 1, 2].map Op.add
            ++ [Op.cancel 1, Op.remove 2]))).1
        (List.replicate (run idCallback (initQueue 5 pendingHeap)
          (Op.start :: ([0, 1, 2].map Op.add
            ++ [Op.cancel 1, Op.remove 2]))).1.jobs.length Op.work)).2
      = (run idCallback (initQueue 5 pendingHeap)
          (Op.start :: ([0, 1, 2].map Op.add
            ++ [Op.cancel 1, Op.remove 2]))).1.jobs.filter
          (fun k => ((run idCallback (initQueue 5 pendingHeap)
            (Op.start :: ([0, 1, 2].map Op.add
              ++ [Op.cancel 1, Op.remove 2]))).1.heap k).status
            = .pending)) ∧
    ([Op.cancel 1, Op.remove 2] = ([] : List Op) →
      (run idCallback
        (run idCallback (initQueue 5 pendingHeap)
          (Op.start :: ([0, 1, 2].map Op.add
            ++ [Op.cancel 1, Op.remove 2]))).1
        (List.replicate ([0, 1, 2] : List JobId).length Op.work)).2
        = [0, 1, 2]) :=
  c1_fifo idCallback pendingHeap [0, 1, 2] [Op.cancel 1, Op.remove 2] 5
    (run idCallback (initQueue 5 pendingHeap)
      (Op.start :: ([0, 1, 2].map Op.add ++ [Op.cancel 1, Op.remove 2]))).1
    (by decide) (by decide) (by decide)
    (by
      intro op hop
      rcases List.mem_cons.mp hop with rfl | hop
      · left; exact ⟨1, rfl⟩
      · rcases List.mem_cons.mp hop with rfl | hop
        · right; exact ⟨2, rfl⟩
        · cases hop) rfl

/-- Claim C4 as stated is false on the code: start() already clears the
pause event, so a job added right after start() is handed to the callback
although resume() is never called — the processed list is not empty. -/
theorem c4_counterexample :
    (run idCallback (initQueue 5 pendingHeap)
      [Op.start, Op.add 0, Op.work]).2 = [0] := by
  decide

/-- Claim C4 amended: it is a fresh queue on which start() has NOT been
called (the queue is paused by construction) that processes zero jobs,
however many worker iterations pass; once start() is called (start()
unpauses, no separate resume() is needed), all added jobs are handed to the
callback, in order. -/
theorem c4_amended (cb : Callback) (heap : Heap) (js : List JobId)
    (n k : Nat) (hnd : js.Nodup) (hlen : js.length ≤ n)
    (hpend : ∀ j ∈ js, (heap j).status = .pending) :
    (run cb (initQueue n heap)
      (js.map Op.add ++ List.replicate k Op.work)).2 = [] ∧
    (run cb (initQueue n heap)
      ((js.map Op.add ++ List.replicate k Op.work)
        ++ Op.start :: List.replicate js.length Op.work)).2 = js := by
  have hadds := run_adds cb js (initQueue n heap)
    (by simp [initQueue]; omega)
  have hjobs : ({ initQueue n heap with
      jobs := (initQueue n heap).jobs ++ js } : QueueState)
      = { jobs := js
          current := none
          stopFlag := false
          pauseFlag := true
          workerAlive := false
          maxSize := n
          heap := heap } := by
    simp [initQueue]
  rw [hjobs] at hadds
  have hworks : run cb
      { jobs := js
        current := none
        stopFlag := false
        pauseFlag := true
        workerAlive := false
        maxSize := n
        heap := heap } (List.replicate k Op.work)
      = ({ jobs := js
           current := none
           stopFlag := false
           pauseFlag := true
           workerAlive := false
           maxSize := n
           heap := heap }, []) := run_work_paused cb rfl k
  constructor
  · rw [run_append, hadds]
    simp only []
    rw [hworks]
    rfl
  · rw [run_append, run_append, hadds]
    simp only []
    rw [hworks]
    simp only [List.append_nil, List.nil_append]
    rw [run_cons]
    have h0 : applyOp cb
        { jobs := js
          current := none
          stopFlag := false
          pauseFlag := true
          workerAlive := false
          maxSize := n
          heap := heap } Op.start =
        ({ jobs := js
           current := none
           stopFlag := false
           pauseFlag := false
           workerAlive := true
           maxSize := n
           heap := heap }, none) := by
      simp [applyOp, startQueue]
    rw [h0]
    have hfilter := run_work_filter cb js.length
      { jobs := js
        current := none
        stopFlag := false
        pauseFlag := false
        workerAlive := true
        maxSize := n
        heap := heap } rfl rfl rfl rfl hnd
    simp only [] at hfilter
    rw [hfilter]
    simp only [Option.toList_none, List.nil_append]
    rw [List.filter_eq_self]
    intro j hj
    simp [hpend j hj]

/-- Witness for C4 amended: two jobs on a fresh capacity-5 queue, three
worker iterations while never started process nothing; after start() both
jobs are processed in order 0, 1. -/
theorem c4_amended_witness :
    (run idCallback (initQueue 5 pendingHeap)
      ([0, 1].map Op.add ++ List.replicate 3 Op.work)).2 = [] ∧
    (run idCallback (initQueue 5 pendingHeap)
      (([0, 1].map Op.add ++ List.replicate 3 Op.work)
        ++ Op.start :: List.replicate ([0, 1] : List JobId).length
          Op.work)).2 = [0, 1] :=
  c4_amended idCallback pendingHeap [0, 1] 5 3 (by decide) (by decide)
    (by decide)

/-- Claim C6 as stated is false in its cancel half: after the worker scans
past a cancelled job (here it skips cancelled job 0 and processes job 1),
the cancelled job is still in the pending list and still counted by
get_queue_size — the scan pops only the PENDING entry it found and never
drops the dead entry. -/
theorem c6_counterexample :
    (run idCallback (initQueue 5 pendingHeap)
      [Op.start, Op.add 0, Op.add 1, Op.cancel 0, Op.work]).2 = [1] ∧
    getQueueSize (run idCallback (initQueue 5 pendingHeap)
      [Op.start, Op.add 0, Op.add 1, Op.cancel 0, Op.work]).1 = 1 ∧
    0 ∈ (run idCallback (initQueue 5 pendingHeap)
      [Op.start, Op.add 0, Op.add 1, Op.cancel 0, Op.work]).1.jobs := by
  refine ⟨by decide, by decide, by decide⟩

/-- Claim C6 amended: remove_job on a queued job removes it at once
(get_queue_size decrements immediately) and, absent a re-add, the job is
never handed to the callback; cancel_job on a queued (non-current) job
leaves get_queue_size unchanged and the job stays in the list — counted —
for ever (until a remove of it or a clear), while never being handed to
the callback. -/
theorem c6_remove_vs_cancel (cb : Callback) (s : QueueState) (j : JobId)
    (ops : List Op) (hmem : j ∈ s.jobs) (hcur : s.current ≠ some j) :
    ((removeJob s j).1 = true ∧
      (removeJob s j).2.jobs = s.jobs.erase j ∧
      getQueueSize (removeJob s j).2 + 1 = getQueueSize s ∧
      (s.jobs.Nodup → (∀ op ∈ ops, op ≠ Op.add j) →
        j ∉ (run cb (removeJob s j).2 ops).2)) ∧
    ((cancelJob s j).1 = true ∧
      getQueueSize (cancelJob s j).2 = getQueueSize s ∧
      ((∀ op ∈ ops, op ≠ Op.remove j ∧ op ≠ Op.clear) →
        j ∈ (run cb (cancelJob s j).2 ops).1.jobs ∧
        j ∉ (run cb (cancelJob s j).2 ops).2)) := by
  have hrem : removeJob s j = (true, { s with jobs := s.jobs.erase j }) := by
    unfold removeJob
    simp [hmem]
  have hcanc : cancelJob s j
      = (true, { s with heap := setStatus s.heap j .failed }) := by
    unfold cancelJob
    simp [hcur, hmem]
  have hfail :
      (({ s with heap := setStatus s.heap j .failed } : QueueState).heap
        j).status = .failed := by
    simp [setStatus]
  constructor
  · refine ⟨by rw [hrem], by rw [hrem], ?_, ?_⟩
    · rw [hrem]
      unfold getQueueSize
      have hlen := List.length_erase_of_mem hmem
      have hpos : 0 < s.jobs.length :=
        List.length_pos.mpr (fun hnil => by rw [hnil] at hmem; cases hmem)
      simp only []
      omega
    · intro hnd hops
      rw [hrem]
      exact (run_notmem_stable cb ops _ j (hnd.not_mem_erase) hops).2
  · refine ⟨by rw [hcanc], by rw [hcanc]; rfl, ?_⟩
    intro hops
    rw [hcanc]
    refine ⟨(run_failedmem cb ops
      { s with heap := setStatus s.heap j .failed } j hmem hfail hops).1, ?_⟩
    exact (run_failed_stable cb ops _ j hfail).2

/-- Witness for C6 amended on the demo queue: removing job 0 drops the size
from 2 to 1 and two worker iterations never hand job 0 over; cancelling
job 0 instead keeps size 2, and after two worker iterations job 0 is still
in the list and was never handed over. -/
theorem c6_remove_vs_cancel_witness :
    ((removeJob demoState 0).1 = true ∧
      (removeJob demoState 0).2.jobs = demoState.jobs.erase 0 ∧
      getQueueSize (removeJob demoState 0).2 + 1 = getQueueSize demoState ∧
      (demoState.jobs.Nodup →
        (∀ op ∈ [Op.work, Op.work], op ≠ Op.add 0) →
        0 ∉ (run idCallback (removeJob demoState 0).2
          [Op.work, Op.work]).2)) ∧
    ((cancelJob demoState 0).1 = true ∧
      getQueueSize (cancelJob demoState 0).2 = getQueueSize demoState ∧
      ((∀ op ∈ [Op.work, Op.work], op ≠ Op.remove 0 ∧ op ≠ Op.clear) →
        0 ∈ (run idCallback (cancelJob demoState 0).2
          [Op.work, Op.work]).1.jobs ∧
        0 ∉ (run idCallback (cancelJob demoState 0).2
          [Op.work, Op.work]).2)) :=
  c6_remove_vs_cancel idCallback demoState 0 [Op.work, Op.work]
    (by decide) (by decide)

/-- Claim C7 as stated is false for the download queue: when the callback
raises, the job is marked FAILED but the exception message is NOT captured
— error_message is still none after the worker iteration (the conversion
queue does capture it; src/core/queue.py does not). -/
theorem c7_counterexample :
    ((run boomCallback (initQueue 5 pendingHeap)
        [Op.start, Op.add 0, Op.work]).1.heap 0).status = .failed ∧
    ((run boomCallback (initQueue 5 pendingHeap)
        [Op.start, Op.add 0, Op.work]).1.heap 0).error_message = none := by
  refine ⟨by decide, by decide⟩

/-- Claim C7 amended: on a callback exception the DownloadQueue marks the
job FAILED (keeping it exactly as the callback left it when the callback
already set FAILED, so a cancellation is never overwritten) but leaves
error_message as the callback left it — the message is not captured; the
ConversionQueue, when the status is still CONVERTING after the exception,
marks the job FAILED and does capture the message into error_message, and
otherwise keeps the record exactly as the callback left it. -/
theorem c7_failure_semantics (cb : Callback) (ccb : CCallback)
    (h : Heap) (hc : CHeap) (j : JobId) (msg msgc : String)
    (hdl : (cb j (setStatus h j .downloading j)).2 = some msg)
    (hcv : (ccb j (convStart hc j j)).2 = some msgc) :
    ((processHeap cb h j j).status = .failed ∧
      (processHeap cb h j j).error_message
        = (cb j (setStatus h j .downloading j)).1.error_message) ∧
    ((cb j (setStatus h j .downloading j)).1.status = .failed →
      processHeap cb h j j = (cb j (setStatus h j .downloading j)).1) ∧
    ((ccb j (convStart hc j j)).1.status = .converting →
      (processHeapC ccb hc j j).status = .failed ∧
      (processHeapC ccb hc j j).error_message = some msgc) ∧
    ((ccb j (convStart hc j j)).1.status ≠ .converting →
      processHeapC ccb hc j j = (ccb j (convStart hc j j)).1) :=
  ⟨processHeap_exc hdl,
   fun hf => processHeap_keep_failed hf,
   fun hs => processHeapC_exc hcv hs,
   fun hs => processHeapC_keep hs⟩

/-- Witness for C7 amended with always-raising callbacks on fresh records:
the download side ends FAILED with error_message none (not captured), the
conversion side ends FAILED with error_message boom. -/
theorem c7_failure_semantics_witness :
    ((processHeap boomCallback pendingHeap 0 0).status = .failed ∧
      (processHeap boomCallback pendingHeap 0 0).error_message
        = (boomCallback 0
            (setStatus pendingHeap 0 .downloading 0)).1.error_message) ∧
    ((boomCallback 0 (setStatus pendingHeap 0 .downloading 0)).1.status
        = .failed →
      processHeap boomCallback pendingHeap 0 0
        = (boomCallback 0 (setStatus pendingHeap 0 .downloading 0)).1) ∧
    ((boomCallbackC 0 (convStart pendingHeapC 0 0)).1.status
        = .converting →
      (processHeapC boomCallbackC pendingHeapC 0 0).status = .failed ∧
      (processHeapC boomCallbackC pendingHeapC 0 0).error_message
        = some "boom") ∧
    ((boomCallbackC 0 (convStart pendingHeapC 0 0)).1.status
        ≠ .converting →
      processHeapC boomCallbackC pendingHeapC 0 0
        = (boomCallbackC 0 (convStart pendingHeapC 0 0)).1) :=
  c7_failure_semantics boomCallback boomCallbackC pendingHeap pendingHeapC
    0 "boom" "boom" rfl rfl

/-- Claim C8 as stated is false: add_job performs no status check, so a
COMPLETED job can be re-added to the pending list, and cancel_job then
moves its status from COMPLETED to FAILED — a queue-operation sequence
that changes a terminal status. -/
theorem c8_counterexample :
    ((initQueue 5 completedHeap).heap 0).status = .completed ∧
    ((run idCallback (initQueue 5 completedHeap)
        [Op.add 0, Op.cancel 0]).1.heap 0).status = .failed := by
  refine ⟨by decide, by decide⟩

/-- Claim C8 amended: a FAILED status is never changed by any sequence of
queue operations at all; a COMPLETED status of a job that is not in the
pending list and not current is never changed by any sequence of queue
operations that does not re-add that job. -/
theorem c8_terminal_stable (cb : Callback) (ops : List Op)
    (s : QueueState) (j : JobId) :
    ((s.heap j).status = .failed →
      ((run cb s ops).1.heap j).status = .failed) ∧
    ((s.heap j).status = .completed → j ∉ s.jobs → s.current ≠ some j →
      (∀ op ∈ ops, op ≠ Op.add j) →
      ((run cb s ops).1.heap j).status = .completed) :=
  ⟨fun hf => (run_failed_stable cb ops s j hf).1,
   fun hcm hnm hcur hops => run_completed cb ops s j hcm hnm hcur hops⟩

/-- Witness for C8 amended: a FAILED record survives a cancel, a clear and
a worker iteration; a COMPLETED record (not queued, not current) survives
an add of another job, a cancel of itself and a worker iteration. -/
theorem c8_terminal_stable_witness :
    (((initQueue 5 (setStatus pendingHeap 0 .failed)).heap 0).status
        = .failed →
      (((run idCallback (initQueue 5 (setStatus pendingHeap 0 .failed))
        [Op.cancel 0, Op.clear, Op.start, Op.work]).1.heap 0).status
        = .failed)) ∧
    (((initQueue 5 completedHeap).heap 0).status = .completed →
      0 ∉ (initQueue 5 completedHeap).jobs →
      (initQueue 5 completedHeap).current ≠ some 0 →
      (∀ op ∈ [Op.add 1, Op.cancel 0, Op.start, Op.work],
        op ≠ Op.add 0) →
      (((run idCallback (initQueue 5 completedHeap)
        [Op.add 1, Op.cancel 0, Op.start, Op.work]).1.heap 0).status
        = .completed)) :=
  ⟨(c8_terminal_stable idCallback [Op.cancel 0, Op.clear, Op.start, Op.work]
      (initQueue 5 (setStatus pendingHeap 0 .failed)) 0).1,
   (c8_terminal_stable idCallback [Op.add 1, Op.cancel 0, Op.start, Op.work]
      (initQueue 5 completedHeap) 0).2⟩

end BGD
